import Mathlib

/-!
Verification of the `json-keypath-iter` crate: a lazy iterator over a parsed
JSON tree yielding, for each visited node, a rendered key path, the list of
array indices crossed, and the node's value.  The embedding below translates
`src/iter.rs`, `src/style/builder.rs`, `src/style/preset.rs` and
`src/builder.rs`.  The crate's current eight-field `Style` struct (the one
constructed by `StyleBuilder::build` and consumed by `Iter`) is not itself
present in the source snapshot, so its methods are modelled from the spec
(section 4.1); everything else is translated directly from the source.
-/

set_option maxHeartbeats 1000000

/-- A parsed JSON tree, mirroring `serde_json::Value`: objects map string keys
to nodes (entry order meaningful), arrays are ordered sequences, the rest are
scalar leaves.  Numbers are represented by an integer payload; no claim
depends on numeric semantics, only on node identity. -/
inductive Value where
  | null : Value
  | bool (b : Bool) : Value
  | num (n : Int) : Value
  | str (s : String) : Value
  | arr (items : List Value) : Value
  | obj (entries : List (String × Value)) : Value

mutual
/-- Total node count of a tree (each object, array, and scalar counts once). -/
def Value.size : Value → Nat
  | .null => 1
  | .bool _ => 1
  | .num _ => 1
  | .str _ => 1
  | .arr vs => 1 + sizeList vs
  | .obj entries => 1 + sizeEntries entries

/-- Total node count of a list of array elements. -/
def sizeList : List Value → Nat
  | [] => 0
  | v :: vs => Value.size v + sizeList vs

/-- Total node count of a list of object entries. -/
def sizeEntries : List (String × Value) → Nat
  | [] => 0
  | (_, v) :: rest => Value.size v + sizeEntries rest
end

/-- `Element` from `src/iter.rs`: the value type yielded by the iterator. -/
structure Element where
  path : String
  indices : List Nat
  value : Value

/-- Modelled from the spec: the crate's current `Style` record (section 3 of
the spec; the eight fields are exactly those assigned by
`StyleBuilder::build` in `src/style/builder.rs`). -/
structure Style where
  object_key_prefix : String
  object_key_suffix : String
  object_keys_in_path : Bool
  skip_object_parents : Bool
  array_key_prefix : String
  array_key_suffix : String
  array_keys_in_path : Bool
  skip_array_parents : Bool

/-- Modelled from the spec: `format_object_child(parent_path, key)` returns
`parent_path + object_key_prefix + key + object_key_suffix`; when the style
hides object keys, the key text is omitted but both delimiters are
retained. -/
def Style.object_format (st : Style) (path : String) (key : String) : String :=
  if Style.object_keys_in_path st then
    path ++ Style.object_key_prefix st ++ key ++ Style.object_key_suffix st
  else
    path ++ Style.object_key_prefix st ++ Style.object_key_suffix st

/-- Modelled from the spec: `format_array_child(parent_path, index)` returns
`parent_path + array_key_prefix + stringified_index + array_key_suffix` when
indices are shown in the path, and omits the index text (delimiters
retained) otherwise. -/
def Style.array_format (st : Style) (path : String) (index : Nat) : String :=
  if Style.array_keys_in_path st then
    path ++ Style.array_key_prefix st ++ toString index ++ Style.array_key_suffix st
  else
    path ++ Style.array_key_prefix st ++ Style.array_key_suffix st

/-- Modelled from the spec: whether an object container node is suppressed
rather than yielded. -/
def Style.should_skip_object_parents (st : Style) : Bool :=
  st.skip_object_parents

/-- Modelled from the spec: whether an array container node is suppressed
rather than yielded. -/
def Style.should_skip_array_parents (st : Style) : Bool :=
  st.skip_array_parents

/-- `StyleBuilder` from `src/style/builder.rs`: every option is tri-state
(unset / set) until `build`. -/
structure StyleBuilder where
  object_key_prefix : Option String
  object_key_suffix : Option String
  object_keys_in_path : Option Bool
  skip_object_parents : Option Bool
  array_key_prefix : Option String
  array_key_suffix : Option String
  array_keys_in_path : Option Bool
  skip_array_parents : Option Bool

/-- `StyleBuilder::new`: every option starts unset. -/
def StyleBuilder.new : StyleBuilder :=
  { object_key_prefix := none
    object_key_suffix := none
    object_keys_in_path := none
    skip_object_parents := none
    array_key_prefix := none
    array_key_suffix := none
    array_keys_in_path := none
    skip_array_parents := none }

/-- Setter `StyleBuilder::object_key_prefix` (named `set_` here because the
Rust method shares its name with the struct field). -/
def StyleBuilder.set_object_key_prefix (b : StyleBuilder) (value : String) : StyleBuilder :=
  { b with object_key_prefix := some value }

/-- Reset `StyleBuilder::default_object_key_prefix`. -/
def StyleBuilder.default_object_key_prefix (b : StyleBuilder) : StyleBuilder :=
  { b with object_key_prefix := none }

/-- Setter `StyleBuilder::object_key_suffix`. -/
def StyleBuilder.set_object_key_suffix (b : StyleBuilder) (value : String) : StyleBuilder :=
  { b with object_key_suffix := some value }

/-- Reset `StyleBuilder::default_object_key_suffix`. -/
def StyleBuilder.default_object_key_suffix (b : StyleBuilder) : StyleBuilder :=
  { b with object_key_suffix := none }

/-- `StyleBuilder::show_object_keys_in_path`. -/
def StyleBuilder.show_object_keys_in_path (b : StyleBuilder) : StyleBuilder :=
  { b with object_keys_in_path := some true }

/-- `StyleBuilder::hide_object_keys_in_path`. -/
def StyleBuilder.hide_object_keys_in_path (b : StyleBuilder) : StyleBuilder :=
  { b with object_keys_in_path := some false }

/-- Reset `StyleBuilder::default_object_keys_in_path`. -/
def StyleBuilder.default_object_keys_in_path (b : StyleBuilder) : StyleBuilder :=
  { b with object_keys_in_path := none }

/-- Setter `StyleBuilder::skip_object_parents`. -/
def StyleBuilder.set_skip_object_parents (b : StyleBuilder) : StyleBuilder :=
  { b with skip_object_parents := some true }

/-- `StyleBuilder::include_object_parents`. -/
def StyleBuilder.include_object_parents (b : StyleBuilder) : StyleBuilder :=
  { b with skip_object_parents := some false }

/-- Reset `StyleBuilder::default_object_parents`. -/
def StyleBuilder.default_object_parents (b : StyleBuilder) : StyleBuilder :=
  { b with skip_object_parents := none }

/-- Setter `StyleBuilder::array_key_prefix`. -/
def StyleBuilder.set_array_key_prefix (b : StyleBuilder) (value : String) : StyleBuilder :=
  { b with array_key_prefix := some value }

/-- Reset `StyleBuilder::default_array_key_prefix`. -/
def StyleBuilder.default_array_key_prefix (b : StyleBuilder) : StyleBuilder :=
  { b with array_key_prefix := none }

/-- Setter `StyleBuilder::array_key_suffix`. -/
def StyleBuilder.set_array_key_suffix (b : StyleBuilder) (value : String) : StyleBuilder :=
  { b with array_key_suffix := some value }

/-- Reset `StyleBuilder::default_array_key_suffix`. -/
def StyleBuilder.default_array_key_suffix (b : StyleBuilder) : StyleBuilder :=
  { b with array_key_suffix := none }

/-- `StyleBuilder::show_array_keys_in_path`. -/
def StyleBuilder.show_array_keys_in_path (b : StyleBuilder) : StyleBuilder :=
  { b with array_keys_in_path := some true }

/-- `StyleBuilder::hide_array_keys_in_path`. -/
def StyleBuilder.hide_array_keys_in_path (b : StyleBuilder) : StyleBuilder :=
  { b with array_keys_in_path := some false }

/-- Reset `StyleBuilder::default_array_keys_in_path`. -/
def StyleBuilder.default_array_keys_in_path (b : StyleBuilder) : StyleBuilder :=
  { b with array_keys_in_path := none }

/-- Setter `StyleBuilder::skip_array_parents`. -/
def StyleBuilder.set_skip_array_parents (b : StyleBuilder) : StyleBuilder :=
  { b with skip_array_parents := some true }

/-- `StyleBuilder::include_array_parents`. -/
def StyleBuilder.include_array_parents (b : StyleBuilder) : StyleBuilder :=
  { b with skip_array_parents := some false }

/-- Reset `StyleBuilder::default_array_parents`. -/
def StyleBuilder.default_array_parents (b : StyleBuilder) : StyleBuilder :=
  { b with skip_array_parents := none }

/-- `StyleBuilder::build`: each unset option resolves to its documented
default (`unwrap_or` values from `src/style/builder.rs`). -/
def StyleBuilder.build : StyleBuilder → Style
  | ⟨okp, oks, okip, sop, akp, aks, akip, sap⟩ =>
    { object_key_prefix := okp.getD "[\""
      object_key_suffix := oks.getD "\"]"
      object_keys_in_path := okip.getD true
      skip_object_parents := sop.getD true
      array_key_prefix := akp.getD "["
      array_key_suffix := aks.getD "]"
      array_keys_in_path := akip.getD true
      skip_array_parents := sap.getD true }

/-- `PresetStyle` from `src/style/preset.rs`. -/
inductive PresetStyle where
  | SquareBrackets : PresetStyle
  | CommonJs : PresetStyle
  | PostgresJson : PresetStyle

/-- `From<PresetStyle> for StyleBuilder` from `src/style/preset.rs`. -/
def PresetStyle.toStyleBuilder : PresetStyle → StyleBuilder
  | PresetStyle.SquareBrackets =>
    let b := StyleBuilder.new
    let b := StyleBuilder.set_object_key_prefix b "[\""
    let b := StyleBuilder.set_object_key_suffix b "\"]"
    let b := StyleBuilder.show_object_keys_in_path b
    let b := StyleBuilder.set_skip_object_parents b
    let b := StyleBuilder.set_array_key_prefix b "["
    let b := StyleBuilder.set_array_key_suffix b "]"
    let b := StyleBuilder.show_array_keys_in_path b
    StyleBuilder.set_skip_array_parents b
  | PresetStyle.CommonJs =>
    let b := StyleBuilder.new
    let b := StyleBuilder.set_object_key_prefix b "."
    let b := StyleBuilder.set_object_key_suffix b ""
    let b := StyleBuilder.show_object_keys_in_path b
    let b := StyleBuilder.set_skip_object_parents b
    let b := StyleBuilder.set_array_key_prefix b "["
    let b := StyleBuilder.set_array_key_suffix b "]"
    let b := StyleBuilder.show_array_keys_in_path b
    StyleBuilder.set_skip_array_parents b
  | PresetStyle.PostgresJson =>
    let b := StyleBuilder.new
    let b := StyleBuilder.set_object_key_prefix b "->\x27"
    let b := StyleBuilder.set_object_key_suffix b "\x27"
    let b := StyleBuilder.show_object_keys_in_path b
    let b := StyleBuilder.set_skip_object_parents b
    let b := StyleBuilder.set_array_key_prefix b "->"
    let b := StyleBuilder.set_array_key_suffix b ""
    let b := StyleBuilder.show_array_keys_in_path b
    StyleBuilder.set_skip_array_parents b

/-- `From<PresetStyle> for Style` from `src/style/preset.rs`: convert to a
builder, then build. -/
def PresetStyle.toStyle (p : PresetStyle) : Style :=
  StyleBuilder.build p.toStyleBuilder

def objChildren (st : Style) (path : String) (indices : List Nat) :
    List (String × Value) → List Element
  | [] => []
  | (k, v) :: rest =>
    { path := st.object_format path k, indices := indices, value := v } ::
      objChildren st path indices rest

def arrChildren (st : Style) (path : String) (indices : List Nat) :
    Nat → List Value → List Element
  | _, [] => []
  | i, v :: rest =>
    { path := st.array_format path i, indices := indices ++ [i], value := v } ::
      arrChildren st path indices (i + 1) rest

def queueSize : List Element → Nat
  | [] => 0
  | el :: rest => el.value.size + queueSize rest

def queueSize_append (a b : List Element) :
    queueSize (a ++ b) = queueSize a + queueSize b := by
  induction a with
  | nil => simp [queueSize]
  | cons el rest ih => simp [queueSize, ih]; omega

def queueSize_objChildren (st : Style) (path : String) (indices : List Nat)
    (entries : List (String × Value)) :
    queueSize (objChildren st path indices entries) = sizeEntries entries := by
  induction entries with
  | nil => simp [objChildren, queueSize, sizeEntries]
  | cons kv rest ih =>
    obtain ⟨k, v⟩ := kv
    simp [objChildren, queueSize, sizeEntries, ih]

def queueSize_arrChildren (st : Style) (path : String) (indices : List Nat)
    (vs : List Value) : ∀ i, queueSize (arrChildren st path indices i vs) = sizeList vs := by
  induction vs with
  | nil => intro i; simp [arrChildren, queueSize, sizeList]
  | cons v rest ih => intro i; simp [arrChildren, queueSize, sizeList, ih]

theorem Value.size_pos (v : Value) : 1 ≤ v.size := by
  cases v <;> simp [Value.size]

def nextAux (st : Style) (l : List Element) : Option Element × List Element :=
  match l with
  | [] => (none, [])
  | ⟨path, indices, Value.obj entries⟩ :: rest =>
    if Style.should_skip_object_parents st then
      nextAux st (objChildren st path indices entries ++ rest)
    else
      (some ⟨path, indices, Value.obj entries⟩, objChildren st path indices entries ++ rest)
  | ⟨path, indices, Value.arr vs⟩ :: rest =>
    if Style.should_skip_array_parents st then
      nextAux st (arrChildren st path indices 0 vs ++ rest)
    else
      (some ⟨path, indices, Value.arr vs⟩, arrChildren st path indices 0 vs ++ rest)
  | ⟨path, indices, Value.null⟩ :: rest => (some ⟨path, indices, Value.null⟩, rest)
  | ⟨path, indices, Value.bool b⟩ :: rest => (some ⟨path, indices, Value.bool b⟩, rest)
  | ⟨path, indices, Value.num n⟩ :: rest => (some ⟨path, indices, Value.num n⟩, rest)
  | ⟨path, indices, Value.str s⟩ :: rest => (some ⟨path, indices, Value.str s⟩, rest)
termination_by queueSize l
decreasing_by
  · simp [queueSize_append, queueSize_objChildren, queueSize, Value.size]
  · simp [queueSize_append, queueSize_arrChildren, queueSize, Value.size]

def nextAux_some_lt (st : Style) (l : List Element) (e : Element) (l2 : List Element)
    (h : nextAux st l = (some e, l2)) : queueSize l2 < queueSize l := by
  match l with
  | [] => simp [nextAux] at h
  | ⟨path, indices, Value.obj entries⟩ :: rest =>
    rw [nextAux] at h
    by_cases hs : Style.should_skip_object_parents st
    · rw [if_pos hs] at h
      have ih := nextAux_some_lt st (objChildren st path indices entries ++ rest) e l2 h
      have : queueSize (objChildren st path indices entries ++ rest) <
          queueSize (Element.mk path indices (Value.obj entries) :: rest) := by
        simp [queueSize_append, queueSize_objChildren, queueSize, Value.size]
      omega
    · rw [if_neg hs] at h
      cases h
      simp [queueSize_append, queueSize_objChildren, queueSize, Value.size]
  | ⟨path, indices, Value.arr vs⟩ :: rest =>
    rw [nextAux] at h
    by_cases hs : Style.should_skip_array_parents st
    · rw [if_pos hs] at h
      have ih := nextAux_some_lt st (arrChildren st path indices 0 vs ++ rest) e l2 h
      have : queueSize (arrChildren st path indices 0 vs ++ rest) <
          queueSize (Element.mk path indices (Value.arr vs) :: rest) := by
        simp [queueSize_append, queueSize_arrChildren, queueSize, Value.size]
      omega
    · rw [if_neg hs] at h
      cases h
      simp [queueSize_append, queueSize_arrChildren, queueSize, Value.size]
  | ⟨path, indices, Value.null⟩ :: rest =>
    rw [nextAux] at h; cases h
    simp [queueSize, Value.size]
  | ⟨path, indices, Value.bool b⟩ :: rest =>
    rw [nextAux] at h; cases h
    simp [queueSize, Value.size]
  | ⟨path, indices, Value.num n⟩ :: rest =>
    rw [nextAux] at h; cases h
    simp [queueSize, Value.size]
  | ⟨path, indices, Value.str s⟩ :: rest =>
    rw [nextAux] at h; cases h
    simp [queueSize, Value.size]
termination_by queueSize l
decreasing_by
  · simp [queueSize_append, queueSize_objChildren, queueSize, Value.size]
  · simp [queueSize_append, queueSize_arrChildren, queueSize, Value.size]

def toListAux (st : Style) (l : List Element) : List Element :=
  if h : (nextAux st l).1.isSome then
    ((nextAux st l).1.get h) :: toListAux st (nextAux st l).2
  else
    []
termination_by queueSize l
decreasing_by
  rcases hn : nextAux st l with ⟨e?, l2⟩
  rw [hn] at h
  cases e? with
  | none => simp at h
  | some e =>
    exact nextAux_some_lt st l e l2 hn


mutual
/-- Recursive pre-order depth-first emission, written from the spec's own
description (section 4.3): a container is listed first (unless its kind is
skipped), then its children in document order, each child path produced by
the style's format functions and each array level appending its index.  This
is the reference order against which the iterator is compared. -/
def preorderFlatten (st : Style) (path : String) (indices : List Nat) : Value → List Element
  | Value.obj entries =>
    (if Style.should_skip_object_parents st then [] else [⟨path, indices, Value.obj entries⟩]) ++
      flattenEntries st path indices entries
  | Value.arr vs =>
    (if Style.should_skip_array_parents st then [] else [⟨path, indices, Value.arr vs⟩]) ++
      flattenItems st path indices 0 vs
  | Value.null => [⟨path, indices, Value.null⟩]
  | Value.bool b => [⟨path, indices, Value.bool b⟩]
  | Value.num n => [⟨path, indices, Value.num n⟩]
  | Value.str s => [⟨path, indices, Value.str s⟩]

/-- Pre-order emission of the children of an object, in entry order. -/
def flattenEntries (st : Style) (path : String) (indices : List Nat) :
    List (String × Value) → List Element
  | [] => []
  | (k, v) :: rest =>
    preorderFlatten st (Style.object_format st path k) indices v ++
      flattenEntries st path indices rest

/-- Pre-order emission of the elements of an array, in index order starting
at `i`. -/
def flattenItems (st : Style) (path : String) (indices : List Nat) :
    Nat → List Value → List Element
  | _, [] => []
  | i, v :: rest =>
    preorderFlatten st (Style.array_format st path i) (indices ++ [i]) v ++
      flattenItems st path indices (i + 1) rest
end


/-- `Iter` from `src/iter.rs`: the iterator state, a style plus the queue of
entries that still need to be processed. -/
structure Iter where
  style : Style
  items : List Element

/-- `Iter::new`: enqueue exactly the root at path `""` with empty indices;
the default style is the `SquareBrackets` preset. -/
def Iter.new (json : Value) : Iter :=
  { items := [{ path := "", indices := [], value := json }]
    style := PresetStyle.toStyle PresetStyle.SquareBrackets }

/-- `Iter::use_style`: replace the style, leaving the queue untouched. -/
def Iter.use_style (it : Iter) (style : Style) : Iter :=
  { it with style := style }

/-- One pull of `Iterator::next` on `Iter` (`src/iter.rs`): the yielded
element, if any, together with the iterator state after the call. -/
def Iter.next (it : Iter) : Option Element × Iter :=
  ((nextAux it.style it.items).1, { style := it.style, items := (nextAux it.style it.items).2 })

/-- Every element yielded by pulling the iterator to exhaustion (what
`Iterator::collect` returns). -/
def Iter.toList (it : Iter) : List Element :=
  toListAux it.style it.items


/-- A step from a node to one of its children: the object entry at position
`i`, or the array element at index `i`. -/
inductive Step where
  | field (i : Nat) : Step
  | index (i : Nat) : Step

/-- The array positions recorded along an address, in root-to-node order
(object-entry steps contribute nothing). -/
def arrayIndicesOf : List Step → List Nat
  | [] => []
  | Step.index i :: rest => i :: arrayIndicesOf rest
  | Step.field _ :: rest => arrayIndicesOf rest

/-- Follow an address from a node down the tree. -/
def Value.getAddr : Value → List Step → Option Value
  | v, [] => some v
  | Value.obj entries, Step.field i :: rest =>
    match entries[i]? with
    | some kv => Value.getAddr kv.2 rest
    | none => none
  | Value.arr vs, Step.index i :: rest =>
    match vs[i]? with
    | some w => Value.getAddr w rest
    | none => none
  | _, _ => none

/-- Whether a node is a scalar leaf (anything but an object or an array). -/
def Value.isScalar : Value → Bool
  | Value.arr _ => false
  | Value.obj _ => false
  | _ => true

mutual
/-- The pre-order emission of `preorderFlatten`, with every produced Element
tagged by the address of its node relative to the traversal root. -/
def flattenAddr (st : Style) (path : String) (indices : List Nat) (a : List Step) :
    Value → List (List Step × Element)
  | Value.obj entries =>
    (if Style.should_skip_object_parents st then []
     else [(a, ⟨path, indices, Value.obj entries⟩)]) ++
      flattenAddrEntries st path indices a 0 entries
  | Value.arr vs =>
    (if Style.should_skip_array_parents st then []
     else [(a, ⟨path, indices, Value.arr vs⟩)]) ++
      flattenAddrItems st path indices a 0 vs
  | Value.null => [(a, ⟨path, indices, Value.null⟩)]
  | Value.bool b => [(a, ⟨path, indices, Value.bool b⟩)]
  | Value.num n => [(a, ⟨path, indices, Value.num n⟩)]
  | Value.str s => [(a, ⟨path, indices, Value.str s⟩)]

/-- Address-tagged emission of the children of an object, entry `i` first. -/
def flattenAddrEntries (st : Style) (path : String) (indices : List Nat) (a : List Step) :
    Nat → List (String × Value) → List (List Step × Element)
  | _, [] => []
  | i, (k, v) :: rest =>
    flattenAddr st (Style.object_format st path k) indices (a ++ [Step.field i]) v ++
      flattenAddrEntries st path indices a (i + 1) rest

/-- Address-tagged emission of the elements of an array, index `i` first. -/
def flattenAddrItems (st : Style) (path : String) (indices : List Nat) (a : List Step) :
    Nat → List Value → List (List Step × Element)
  | _, [] => []
  | i, v :: rest =>
    flattenAddr st (Style.array_format st path i) (indices ++ [i]) (a ++ [Step.index i]) v ++
      flattenAddrItems st path indices a (i + 1) rest
end

/-- Modelled from the spec: the historical `JsonKeyPathIter` iterator that
`JsonKeyPathIterBuilder::build` constructs.  `crate::JsonKeyPathIter` is not
in the source snapshot (only its builder, `src/builder.rs`, is); this record
holds exactly the arguments `JsonKeyPathIter::new` receives there. -/
structure JsonKeyPathIter where
  base_path : String
  object_key_prefix : String
  object_key_suffix : String
  array_key_prefix : String
  array_key_suffix : String
  indices_in_path : Bool
  skip_parents : Bool
  json : Value

/-- Modelled from the spec: `JsonKeyPathIter::new` records its arguments. -/
def JsonKeyPathIter.new
    ( base_path object_key_prefix object_key_suffix array_key_prefix array_key_suffix : String)
    (indices_in_path skip_parents : Bool) (json : Value) : JsonKeyPathIter :=
  { base_path := base_path
    object_key_prefix := object_key_prefix
    object_key_suffix := object_key_suffix
    array_key_prefix := array_key_prefix
    array_key_suffix := array_key_suffix
    indices_in_path := indices_in_path
    skip_parents := skip_parents
    json := json }

/-- `JsonKeyPathIterBuilder` from `src/builder.rs` (historical variant). -/
structure JsonKeyPathIterBuilder where
  base_path : Option String
  object_key_prefix : Option String
  object_key_suffix : Option String
  array_key_prefix : Option String
  array_key_suffix : Option String
  indices_in_path : Bool
  skip_parents : Bool

/-- `JsonKeyPathIterBuilder::new`. -/
def JsonKeyPathIterBuilder.new : JsonKeyPathIterBuilder :=
  { base_path := none
    object_key_prefix := none
    object_key_suffix := none
    array_key_prefix := none
    array_key_suffix := none
    indices_in_path := true
    skip_parents := false }

/-- Setter `JsonKeyPathIterBuilder::base_path`. -/
def JsonKeyPathIterBuilder.set_base_path (b : JsonKeyPathIterBuilder) (value : String) :
    JsonKeyPathIterBuilder :=
  { b with base_path := some value }

/-- Setter `JsonKeyPathIterBuilder::object_key_prefix`. -/
def JsonKeyPathIterBuilder.set_object_key_prefix (b : JsonKeyPathIterBuilder) (value : String) :
    JsonKeyPathIterBuilder :=
  { b with object_key_prefix := some value }

/-- Setter `JsonKeyPathIterBuilder::object_key_suffix`. -/
def JsonKeyPathIterBuilder.set_object_key_suffix (b : JsonKeyPathIterBuilder) (value : String) :
    JsonKeyPathIterBuilder :=
  { b with object_key_suffix := some value }

/-- Setter `JsonKeyPathIterBuilder::array_key_prefix`. -/
def JsonKeyPathIterBuilder.set_array_key_prefix (b : JsonKeyPathIterBuilder) (value : String) :
    JsonKeyPathIterBuilder :=
  { b with array_key_prefix := some value }

/-- Setter `JsonKeyPathIterBuilder::array_key_suffix`. -/
def JsonKeyPathIterBuilder.set_array_key_suffix (b : JsonKeyPathIterBuilder) (value : String) :
    JsonKeyPathIterBuilder :=
  { b with array_key_suffix := some value }

/-- `JsonKeyPathIterBuilder::show_indices_in_path`. -/
def JsonKeyPathIterBuilder.show_indices_in_path (b : JsonKeyPathIterBuilder) :
    JsonKeyPathIterBuilder :=
  { b with indices_in_path := true }

/-- `JsonKeyPathIterBuilder::hide_indices_in_path`. -/
def JsonKeyPathIterBuilder.hide_indices_in_path (b : JsonKeyPathIterBuilder) :
    JsonKeyPathIterBuilder :=
  { b with indices_in_path := false }

/-- Setter `JsonKeyPathIterBuilder::skip_parents`. -/
def JsonKeyPathIterBuilder.set_skip_parents (b : JsonKeyPathIterBuilder) :
    JsonKeyPathIterBuilder :=
  { b with skip_parents := true }

/-- `JsonKeyPathIterBuilder::show_parents`. -/
def JsonKeyPathIterBuilder.show_parents (b : JsonKeyPathIterBuilder) :
    JsonKeyPathIterBuilder :=
  { b with skip_parents := false }

/-- `JsonKeyPathIterBuilder::build` from `src/builder.rs`: always returns
`Ok`, with every unset string option resolved to the empty string. -/
def JsonKeyPathIterBuilder.build : JsonKeyPathIterBuilder → Value → Except String JsonKeyPathIter
  | ⟨bp, okp, oks, akp, aks, iip, sp⟩, json =>
    Except.ok (JsonKeyPathIter.new (bp.getD "") (okp.getD "") (oks.getD "")
      (akp.getD "") (aks.getD "") iip sp json)

namespace Legacy

/-- The historical six-field style struct from `src/style/mod.rs`, named
`Style` there; it is qualified here to keep it apart from the current
eight-field `Style`. -/
structure Style where
  object_key_prefix : String
  object_key_suffix : String
  array_key_prefix : String
  array_key_suffix : String
  indices_in_path : Bool
  skip_parents : Bool

/-- `Style::object_format` from `src/style/mod.rs`: the key text is always
included between the two delimiters. -/
def Style.object_format (st : Style) (path : String) (key : String) : String :=
  path ++ Style.object_key_prefix st ++ key ++ Style.object_key_suffix st

/-- `Style::array_format` from `src/style/mod.rs`: the index text appears only
when `indices_in_path` is set; the delimiters are always retained. -/
def Style.array_format (st : Style) (path : String) (index : Nat) : String :=
  if Style.indices_in_path st then
    path ++ Style.array_key_prefix st ++ toString index ++ Style.array_key_suffix st
  else
    path ++ Style.array_key_prefix st ++ Style.array_key_suffix st

/-- The historical `Styles` preset enum from `src/style/mod.rs`. -/
inductive Styles where
  | SquareBrackets : Styles
  | CommonJs : Styles
  | PostgresJson : Styles
  | Custom (style : Style) : Styles

/-- `From<&Styles> for Style` from `src/style/mod.rs`. -/
def Styles.toStyle : Styles → Style
  | Styles.SquareBrackets =>
    { object_key_prefix := "[\""
      object_key_suffix := "\"]"
      array_key_prefix := "["
      array_key_suffix := "]"
      indices_in_path := true
      skip_parents := false }
  | Styles.CommonJs =>
    { object_key_prefix := "."
      object_key_suffix := ""
      array_key_prefix := "["
      array_key_suffix := "]"
      indices_in_path := false
      skip_parents := false }
  | Styles.PostgresJson =>
    { object_key_prefix := "->\x27"
      object_key_suffix := "\x27"
      array_key_prefix := "->"
      array_key_suffix := ""
      indices_in_path := true
      skip_parents := false }
  | Styles.Custom style_details =>
    { object_key_prefix := Style.object_key_prefix style_details
      object_key_suffix := Style.object_key_suffix style_details
      array_key_prefix := Style.array_key_prefix style_details
      array_key_suffix := Style.array_key_suffix style_details
      indices_in_path := Style.indices_in_path style_details
      skip_parents := Style.skip_parents style_details }

end Legacy



/-- The custom style of the spec's hidden-indices example: array delimiters
`#` and `$`, array indices hidden in the path, everything else left to the
builder defaults (parents skipped). -/
def hashDollarHiddenIndicesStyle : Style :=
  let b := StyleBuilder.new
  let b := StyleBuilder.set_array_key_prefix b "#"
  let b := StyleBuilder.set_array_key_suffix b "$"
  let b := StyleBuilder.hide_array_keys_in_path b
  StyleBuilder.build b

/-- The style of the builder's `hide_object_keys_in_path` documentation
example: object keys hidden in the path, everything else default. -/
def hiddenObjectKeysStyle : Style :=
  StyleBuilder.build (StyleBuilder.hide_object_keys_in_path StyleBuilder.new)


theorem toListAux_congr (st : Style) (l l2 : List Element)
    (h : nextAux st l = nextAux st l2) : toListAux st l = toListAux st l2 := by
  conv_lhs => rw [toListAux.eq_def]
  conv_rhs => rw [toListAux.eq_def]
  rw [h]

theorem toListAux_of_some (st : Style) (l : List Element) (e : Element) (l2 : List Element)
    (h : nextAux st l = (some e, l2)) : toListAux st l = e :: toListAux st l2 := by
  rw [toListAux.eq_def]
  simp [h]

theorem toListAux_of_none (st : Style) (l : List Element) (l2 : List Element)
    (h : nextAux st l = (none, l2)) : toListAux st l = [] := by
  rw [toListAux.eq_def]
  simp [h]
theorem flatMap_objChildren (st : Style) (path : String) (indices : List Nat)
    (entries : List (String × Value)) :
    (objChildren st path indices entries).flatMap
        (fun el => preorderFlatten st el.path el.indices el.value) =
      flattenEntries st path indices entries := by
  induction entries with
  | nil => simp [objChildren, flattenEntries]
  | cons kv rest ih =>
    obtain ⟨k, v⟩ := kv
    simp [objChildren, flattenEntries, ih]

theorem flatMap_arrChildren (st : Style) (path : String) (indices : List Nat)
    (vs : List Value) :
    ∀ i, (arrChildren st path indices i vs).flatMap
        (fun el => preorderFlatten st el.path el.indices el.value) =
      flattenItems st path indices i vs := by
  induction vs with
  | nil => intro i; simp [arrChildren, flattenItems]
  | cons v rest ih => intro i; simp [arrChildren, flattenItems, ih]


/-- The worklist traversal of `Iter::next`, run to exhaustion from any queue,
produces exactly the recursive pre-order emission of each queued entry, in
queue order. -/
theorem toListAux_eq_flatten (st : Style) (l : List Element) :
    toListAux st l =
      l.flatMap (fun el => preorderFlatten st el.path el.indices el.value) := by
  match l with
  | [] =>
    rw [toListAux_of_none st [] [] (by rw [nextAux])]
    simp
  | ⟨path, indices, Value.obj entries⟩ :: rest =>
    cases hs : Style.should_skip_object_parents st
    · have hnext : nextAux st (⟨path, indices, Value.obj entries⟩ :: rest) =
          (some ⟨path, indices, Value.obj entries⟩,
            objChildren st path indices entries ++ rest) := by
        rw [nextAux]; simp [hs]
      rw [toListAux_of_some st _ _ _ hnext]
      rw [toListAux_eq_flatten st (objChildren st path indices entries ++ rest)]
      simp [preorderFlatten, hs, flatMap_objChildren]
    · have hnext : nextAux st (⟨path, indices, Value.obj entries⟩ :: rest) =
          nextAux st (objChildren st path indices entries ++ rest) := by
        rw [nextAux]; simp [hs]
      rw [toListAux_congr st _ _ hnext]
      rw [toListAux_eq_flatten st (objChildren st path indices entries ++ rest)]
      simp [preorderFlatten, hs, flatMap_objChildren]
  | ⟨path, indices, Value.arr vs⟩ :: rest =>
    cases hs : Style.should_skip_array_parents st
    · have hnext : nextAux st (⟨path, indices, Value.arr vs⟩ :: rest) =
          (some ⟨path, indices, Value.arr vs⟩,
            arrChildren st path indices 0 vs ++ rest) := by
        rw [nextAux]; simp [hs]
      rw [toListAux_of_some st _ _ _ hnext]
      rw [toListAux_eq_flatten st (arrChildren st path indices 0 vs ++ rest)]
      simp [preorderFlatten, hs, flatMap_arrChildren]
    · have hnext : nextAux st (⟨path, indices, Value.arr vs⟩ :: rest) =
          nextAux st (arrChildren st path indices 0 vs ++ rest) := by
        rw [nextAux]; simp [hs]
      rw [toListAux_congr st _ _ hnext]
      rw [toListAux_eq_flatten st (arrChildren st path indices 0 vs ++ rest)]
      simp [preorderFlatten, hs, flatMap_arrChildren]
  | ⟨path, indices, Value.null⟩ :: rest =>
    rw [toListAux_of_some st _ _ _ (by rw [nextAux])]
    rw [toListAux_eq_flatten st rest]
    simp [preorderFlatten]
  | ⟨path, indices, Value.bool b⟩ :: rest =>
    rw [toListAux_of_some st _ _ _ (by rw [nextAux])]
    rw [toListAux_eq_flatten st rest]
    simp [preorderFlatten]
  | ⟨path, indices, Value.num n⟩ :: rest =>
    rw [toListAux_of_some st _ _ _ (by rw [nextAux])]
    rw [toListAux_eq_flatten st rest]
    simp [preorderFlatten]
  | ⟨path, indices, Value.str s⟩ :: rest =>
    rw [toListAux_of_some st _ _ _ (by rw [nextAux])]
    rw [toListAux_eq_flatten st rest]
    simp [preorderFlatten]
termination_by queueSize l
decreasing_by
  all_goals
    simp [queueSize_append, queueSize_objChildren, queueSize_arrChildren, queueSize, Value.size]

/-- C1: for every input tree and every style, the sequence of Elements the
iterator yields equals the recursive pre-order depth-first emission of the
tree: siblings appear in their original document order (object entries in
entry order, array elements in index order), and an emitted container node
precedes every Element drawn from its descendants. -/
theorem iter_visits_preorder_depth_first (st : Style) (v : Value) :
    Iter.toList (Iter.use_style (Iter.new v) st) = preorderFlatten st "" [] v := by
  show toListAux st [⟨"", [], v⟩] = _
  rw [toListAux_eq_flatten]
  simp

/-- C10: `use_style` replaces only the iterator's style field and leaves the
pending queue unchanged; since `Iter::new` already enqueues the root entry
with path `""` and empty indices, the root entry is identical under every
style passed to `use_style`. -/
theorem use_style_replaces_only_style (it : Iter) (st : Style) (v : Value) :
    (Iter.use_style it st).items = it.items ∧
    (Iter.use_style it st).style = st ∧
    (Iter.use_style (Iter.new v) st).items = [{ path := "", indices := [], value := v }] :=
  ⟨rfl, rfl, rfl⟩

theorem preorderFlatten_length_le (st : Style) (path0 : String) (indices0 : List Nat)
    (v0 : Value) : (preorderFlatten st path0 indices0 v0).length ≤ Value.size v0 := by
  refine preorderFlatten.induct st
    (fun path indices v => (preorderFlatten st path indices v).length ≤ Value.size v)
    (fun path indices i vs => (flattenItems st path indices i vs).length ≤ sizeList vs)
    (fun path indices entries =>
      (flattenEntries st path indices entries).length ≤ sizeEntries entries)
    ?_ ?_ ?_ ?_ ?_ ?_ ?_ ?_ ?_ ?_ path0 indices0 v0
  · intro path indices entries h3
    simp [preorderFlatten, Value.size]
    cases Style.should_skip_object_parents st <;> simp <;> omega
  · intro path indices vs h2
    simp [preorderFlatten, Value.size]
    cases Style.should_skip_array_parents st <;> simp <;> omega
  · intro path indices; simp [preorderFlatten, Value.size]
  · intro path indices b; simp [preorderFlatten, Value.size]
  · intro path indices n; simp [preorderFlatten, Value.size]
  · intro path indices s; simp [preorderFlatten, Value.size]
  · intro path indices i; simp [flattenItems, sizeList]
  · intro path indices i v rest h1 h2
    simp [flattenItems, sizeList]; omega
  · intro path indices; simp [flattenEntries, sizeEntries]
  · intro path indices k v rest h1 h2
    simp [flattenEntries, sizeEntries]; omega

theorem preorderFlatten_length_eq (st : Style) (hobj : st.skip_object_parents = false)
    (harr : st.skip_array_parents = false) (path0 : String) (indices0 : List Nat)
    (v0 : Value) : (preorderFlatten st path0 indices0 v0).length = Value.size v0 := by
  refine preorderFlatten.induct st
    (fun path indices v => (preorderFlatten st path indices v).length = Value.size v)
    (fun path indices i vs => (flattenItems st path indices i vs).length = sizeList vs)
    (fun path indices entries =>
      (flattenEntries st path indices entries).length = sizeEntries entries)
    ?_ ?_ ?_ ?_ ?_ ?_ ?_ ?_ ?_ ?_ path0 indices0 v0
  · intro path indices entries h3
    simp [preorderFlatten, Value.size, Style.should_skip_object_parents, hobj]
    omega
  · intro path indices vs h2
    simp [preorderFlatten, Value.size, Style.should_skip_array_parents, harr]
    omega
  · intro path indices; simp [preorderFlatten, Value.size]
  · intro path indices b; simp [preorderFlatten, Value.size]
  · intro path indices n; simp [preorderFlatten, Value.size]
  · intro path indices s; simp [preorderFlatten, Value.size]
  · intro path indices i; simp [flattenItems, sizeList]
  · intro path indices i v rest h1 h2
    simp [flattenItems, sizeList]; omega
  · intro path indices; simp [flattenEntries, sizeEntries]
  · intro path indices k v rest h1 h2
    simp [flattenEntries, sizeEntries]; omega

theorem iter_with_parents_included_counts_nodes (st : Style) (v : Value)
    (hobj : st.skip_object_parents = false) (harr : st.skip_array_parents = false) :
    (Iter.toList (Iter.use_style (Iter.new v) st)).length = Value.size v := by
  show (toListAux st [⟨"", [], v⟩]).length = _
  rw [toListAux_eq_flatten]
  simp [preorderFlatten_length_eq st hobj harr]

theorem iter_with_parents_included_counts_nodes_witness :
    (StyleBuilder.build (StyleBuilder.include_array_parents
        (StyleBuilder.include_object_parents StyleBuilder.new))).skip_object_parents = false ∧
    (StyleBuilder.build (StyleBuilder.include_array_parents
        (StyleBuilder.include_object_parents StyleBuilder.new))).skip_array_parents = false ∧
    (Iter.toList (Iter.use_style
        (Iter.new (Value.obj [("a", Value.bool true), ("b", Value.bool false)]))
        (StyleBuilder.build (StyleBuilder.include_array_parents
          (StyleBuilder.include_object_parents StyleBuilder.new))))).length =
      Value.size (Value.obj [("a", Value.bool true), ("b", Value.bool false)]) ∧
    Iter.toList (Iter.use_style
        (Iter.new (Value.obj [("a", Value.bool true), ("b", Value.bool false)]))
        (StyleBuilder.build (StyleBuilder.include_array_parents
          (StyleBuilder.include_object_parents StyleBuilder.new)))) =
      [⟨"", [], Value.obj [("a", Value.bool true), ("b", Value.bool false)]⟩,
       ⟨"[\"a\"]", [], Value.bool true⟩,
       ⟨"[\"b\"]", [], Value.bool false⟩] :=
  ⟨rfl, rfl, iter_with_parents_included_counts_nodes _ _ rfl rfl,
    (toListAux_eq_flatten _ _).trans rfl⟩

theorem nextAux_nil (st : Style) : nextAux st [] = (none, []) := by
  rw [nextAux]

theorem nextAux_none_nil (st : Style) (l : List Element) (l2 : List Element)
    (h : nextAux st l = (none, l2)) : l2 = [] := by
  match l with
  | [] =>
    rw [nextAux] at h
    cases h
    rfl
  | ⟨path, indices, Value.obj entries⟩ :: rest =>
    rw [nextAux] at h
    by_cases hs : Style.should_skip_object_parents st
    · rw [if_pos hs] at h
      exact nextAux_none_nil st (objChildren st path indices entries ++ rest) l2 h
    · rw [if_neg hs] at h
      simp at h
  | ⟨path, indices, Value.arr vs⟩ :: rest =>
    rw [nextAux] at h
    by_cases hs : Style.should_skip_array_parents st
    · rw [if_pos hs] at h
      exact nextAux_none_nil st (arrChildren st path indices 0 vs ++ rest) l2 h
    · rw [if_neg hs] at h
      simp at h
  | ⟨path, indices, Value.null⟩ :: rest => rw [nextAux] at h; simp at h
  | ⟨path, indices, Value.bool b⟩ :: rest => rw [nextAux] at h; simp at h
  | ⟨path, indices, Value.num n⟩ :: rest => rw [nextAux] at h; simp at h
  | ⟨path, indices, Value.str s⟩ :: rest => rw [nextAux] at h; simp at h
termination_by queueSize l
decreasing_by
  all_goals
    simp [queueSize_append, queueSize_objChildren, queueSize_arrChildren, queueSize, Value.size]

theorem iterate_step_on_empty (st : Style) :
    ∀ n : Nat, (fun j => (Iter.next j).2)^[n] (Iter.mk st []) = Iter.mk st [] := by
  intro n
  induction n with
  | zero => rfl
  | succ n ih =>
    rw [Function.iterate_succ_apply]
    have hstep : (Iter.next (Iter.mk st [])).2 = Iter.mk st [] := by
      simp [Iter.next, nextAux_nil]
    rw [hstep, ih]

/-- C9: iteration terminates and exhaustion persists: the number of
successful pulls from a fresh iterator is at most the tree's node count, and
any iterator state whose pull reports exhaustion keeps reporting exhaustion
on every subsequent pull (the traversal never resumes and never errors). -/
theorem iteration_terminates_and_exhaustion_persists (st : Style) (v : Value) :
    (Iter.toList (Iter.use_style (Iter.new v) st)).length ≤ Value.size v ∧
    ∀ it : Iter, (Iter.next it).1 = none →
      ∀ n : Nat, (Iter.next ((fun j => (Iter.next j).2)^[n] (Iter.next it).2)).1 = none := by
  constructor
  · show (toListAux st [⟨"", [], v⟩]).length ≤ _
    rw [toListAux_eq_flatten]
    simpa using preorderFlatten_length_le st "" [] v
  · intro it h n
    rcases hn : nextAux it.style it.items with ⟨e?, l2⟩
    have h2 : (nextAux it.style it.items).1 = none := h
    rw [hn] at h2
    cases e? with
    | some e => simp at h2
    | none =>
      have hnil : l2 = [] := nextAux_none_nil it.style it.items l2 hn
      have hstate : (Iter.next it).2 = Iter.mk it.style [] := by
        simp [Iter.next, hn, hnil]
      rw [hstate, iterate_step_on_empty]
      simp [Iter.next, nextAux_nil]

theorem iteration_terminates_and_exhaustion_persists_witness :
    (Iter.next (Iter.mk (PresetStyle.toStyle PresetStyle.SquareBrackets) [])).1 = none ∧
    (Iter.next ((fun j => (Iter.next j).2)^[2]
      (Iter.next (Iter.mk (PresetStyle.toStyle PresetStyle.SquareBrackets) [])).2)).1 = none :=
  ⟨by simp [Iter.next, nextAux_nil],
   (iteration_terminates_and_exhaustion_persists
       (PresetStyle.toStyle PresetStyle.SquareBrackets) Value.null).2
     (Iter.mk (PresetStyle.toStyle PresetStyle.SquareBrackets) [])
     (by simp [Iter.next, nextAux_nil]) 2⟩

/-- C3: the three named presets build exactly the documented styles
(delimiters as listed, indices shown in the path, container parents
skipped), and the CommonJs preset on the tree for `{"a":{"b":2}}` yields
exactly one Element, with path `.a.b` and empty indices. -/
theorem presets_build_documented_styles :
    PresetStyle.toStyle PresetStyle.SquareBrackets =
      { object_key_prefix := "[\""
        object_key_suffix := "\"]"
        object_keys_in_path := true
        skip_object_parents := true
        array_key_prefix := "["
        array_key_suffix := "]"
        array_keys_in_path := true
        skip_array_parents := true } ∧
    PresetStyle.toStyle PresetStyle.CommonJs =
      { object_key_prefix := "."
        object_key_suffix := ""
        object_keys_in_path := true
        skip_object_parents := true
        array_key_prefix := "["
        array_key_suffix := "]"
        array_keys_in_path := true
        skip_array_parents := true } ∧
    PresetStyle.toStyle PresetStyle.PostgresJson =
      { object_key_prefix := "->\x27"
        object_key_suffix := "\x27"
        object_keys_in_path := true
        skip_object_parents := true
        array_key_prefix := "->"
        array_key_suffix := ""
        array_keys_in_path := true
        skip_array_parents := true } ∧
    Iter.toList (Iter.use_style (Iter.new (Value.obj [("a", Value.obj [("b", Value.num 2)])]))
        (PresetStyle.toStyle PresetStyle.CommonJs)) =
      [{ path := ".a.b", indices := [], value := Value.num 2 }] :=
  ⟨rfl, rfl, rfl, (toListAux_eq_flatten _ _).trans rfl⟩

/-- C5: `array_format` renders parent path, array-key prefix, stringified
index, array-key suffix when indices are shown in the path, and omits only
the index text (delimiters retained) when hidden — for the historical
six-field style and the current style alike — while the numeric index is
recorded in `indices` either way: on `["x","y"]` with array delimiters
`#`/`$`, hidden indices and skipped parents, both yielded Elements carry
the identical path `#$` but distinct indices `[0]` and `[1]`. -/
theorem array_format_index_visibility (st : Style) (lst : Legacy.Style)
    (path : String) (i : Nat) :
    ( Legacy.Style.indices_in_path lst = true →
      Legacy.Style.array_format lst path i =
        path ++ Legacy.Style.array_key_prefix lst ++ toString i ++
          Legacy.Style.array_key_suffix lst) ∧
    ( Legacy.Style.indices_in_path lst = false →
      Legacy.Style.array_format lst path i =
        path ++ Legacy.Style.array_key_prefix lst ++ Legacy.Style.array_key_suffix lst) ∧
    ( Style.array_keys_in_path st = true →
      Style.array_format st path i =
        path ++ Style.array_key_prefix st ++ toString i ++ Style.array_key_suffix st) ∧
    ( Style.array_keys_in_path st = false →
      Style.array_format st path i =
        path ++ Style.array_key_prefix st ++ Style.array_key_suffix st) ∧
    Iter.toList (Iter.use_style (Iter.new (Value.arr [Value.str "x", Value.str "y"]))
        hashDollarHiddenIndicesStyle) =
      [{ path := "#$", indices := [0], value := Value.str "x" },
       { path := "#$", indices := [1], value := Value.str "y" }] := by
  refine ⟨?_, ?_, ?_, ?_, (toListAux_eq_flatten _ _).trans rfl⟩
  · intro h; simp [Legacy.Style.array_format, h]
  · intro h; simp [Legacy.Style.array_format, h]
  · intro h; simp [Style.array_format, h]
  · intro h; simp [Style.array_format, h]

theorem array_format_index_visibility_witness :
    Legacy.Style.indices_in_path (Legacy.Styles.toStyle Legacy.Styles.SquareBrackets) = true ∧
    Legacy.Style.array_format (Legacy.Styles.toStyle Legacy.Styles.SquareBrackets) "" 3 =
      "" ++ Legacy.Style.array_key_prefix (Legacy.Styles.toStyle Legacy.Styles.SquareBrackets) ++
        toString 3 ++
        Legacy.Style.array_key_suffix (Legacy.Styles.toStyle Legacy.Styles.SquareBrackets) ∧
    Style.array_keys_in_path hashDollarHiddenIndicesStyle = false ∧
    Style.array_format hashDollarHiddenIndicesStyle "" 3 =
      "" ++ Style.array_key_prefix hashDollarHiddenIndicesStyle ++
        Style.array_key_suffix hashDollarHiddenIndicesStyle :=
  ⟨rfl,
   (array_format_index_visibility hashDollarHiddenIndicesStyle
      (Legacy.Styles.toStyle Legacy.Styles.SquareBrackets) "" 3).1 rfl,
   rfl,
   (array_format_index_visibility hashDollarHiddenIndicesStyle
      (Legacy.Styles.toStyle Legacy.Styles.SquareBrackets) "" 3).2.2.2.1 rfl⟩

/-- C6: `object_format` renders parent path, object-key prefix, key,
object-key suffix; the historical variant always includes the key text, and
the current variant, when configured to hide object keys, omits only the key
text while keeping both delimiters — `hide_object_keys_in_path` on
`{"apple": [1, true, "three"]}` gives the first path `[""][0]`. -/
theorem object_format_key_visibility (st : Style) (lst : Legacy.Style)
    (path key : String) :
    Legacy.Style.object_format lst path key =
      path ++ Legacy.Style.object_key_prefix lst ++ key ++
        Legacy.Style.object_key_suffix lst ∧
    ( Style.object_keys_in_path st = true →
      Style.object_format st path key =
        path ++ Style.object_key_prefix st ++ key ++ Style.object_key_suffix st) ∧
    ( Style.object_keys_in_path st = false →
      Style.object_format st path key =
        path ++ Style.object_key_prefix st ++ Style.object_key_suffix st) ∧
    Iter.toList (Iter.use_style
        (Iter.new (Value.obj
          [("apple", Value.arr [Value.num 1, Value.bool true, Value.str "three"])]))
        hiddenObjectKeysStyle) =
      [{ path := "[\"\"][0]", indices := [0], value := Value.num 1 },
       { path := "[\"\"][1]", indices := [1], value := Value.bool true },
       { path := "[\"\"][2]", indices := [2], value := Value.str "three" }] := by
  refine ⟨rfl, ?_, ?_, (toListAux_eq_flatten _ _).trans rfl⟩
  · intro h; simp [Style.object_format, h]
  · intro h; simp [Style.object_format, h]

theorem object_format_key_visibility_witness :
    Style.object_keys_in_path hiddenObjectKeysStyle = false ∧
    Style.object_format hiddenObjectKeysStyle "" "apple" =
      "" ++ Style.object_key_prefix hiddenObjectKeysStyle ++
        Style.object_key_suffix hiddenObjectKeysStyle :=
  ⟨rfl,
   (object_format_key_visibility hiddenObjectKeysStyle
      (Legacy.Styles.toStyle Legacy.Styles.SquareBrackets) "" "apple").2.2.1 rfl⟩

/-- C7: `StyleBuilder::build` is total, and resolves every unset option to
its documented default — object delimiters `["` and `"]`, array delimiters
`[` and `]`, keys and indices shown in the path, parents skipped; the
historical `JsonKeyPathIterBuilder::build` likewise always returns `Ok`. -/
theorem builders_build_never_fails (b : StyleBuilder) (jb : JsonKeyPathIterBuilder) (v : Value) :
    ( StyleBuilder.object_key_prefix b = none →
      Style.object_key_prefix (StyleBuilder.build b) = "[\"") ∧
    ( StyleBuilder.object_key_suffix b = none →
      Style.object_key_suffix (StyleBuilder.build b) = "\"]") ∧
    ( StyleBuilder.object_keys_in_path b = none →
      Style.object_keys_in_path (StyleBuilder.build b) = true) ∧
    ( StyleBuilder.skip_object_parents b = none →
      Style.skip_object_parents (StyleBuilder.build b) = true) ∧
    ( StyleBuilder.array_key_prefix b = none →
      Style.array_key_prefix (StyleBuilder.build b) = "[") ∧
    ( StyleBuilder.array_key_suffix b = none →
      Style.array_key_suffix (StyleBuilder.build b) = "]") ∧
    ( StyleBuilder.array_keys_in_path b = none →
      Style.array_keys_in_path (StyleBuilder.build b) = true) ∧
    ( StyleBuilder.skip_array_parents b = none →
      Style.skip_array_parents (StyleBuilder.build b) = true) ∧
    ∃ it : JsonKeyPathIter, JsonKeyPathIterBuilder.build jb v = Except.ok it := by
  obtain ⟨okp, oks, okip, sop, akp, aks, akip, sap⟩ := b
  obtain ⟨bp2, okp2, oks2, akp2, aks2, iip2, sp2⟩ := jb
  refine ⟨?_, ?_, ?_, ?_, ?_, ?_, ?_, ?_, ⟨_, rfl⟩⟩ <;>
    (intro h; simp_all [StyleBuilder.build])

theorem builders_build_never_fails_witness :
    StyleBuilder.object_key_prefix StyleBuilder.new = none ∧
    Style.object_key_prefix (StyleBuilder.build StyleBuilder.new) = "[\"" ∧
    Style.skip_object_parents (StyleBuilder.build StyleBuilder.new) = true ∧
    ∃ it : JsonKeyPathIter,
      JsonKeyPathIterBuilder.build JsonKeyPathIterBuilder.new Value.null = Except.ok it :=
  ⟨rfl,
   (builders_build_never_fails StyleBuilder.new JsonKeyPathIterBuilder.new Value.null).1 rfl,
   (builders_build_never_fails StyleBuilder.new JsonKeyPathIterBuilder.new Value.null).2.2.2.1
     rfl,
   (builders_build_never_fails StyleBuilder.new
      JsonKeyPathIterBuilder.new Value.null).2.2.2.2.2.2.2.2⟩

theorem flattenAddr_map_snd (st : Style) (path0 : String) (indices0 : List Nat)
    (a0 : List Step) (v0 : Value) :
    (flattenAddr st path0 indices0 a0 v0).map Prod.snd = preorderFlatten st path0 indices0 v0 := by
  refine flattenAddr.induct st
    (fun path indices a v =>
      (flattenAddr st path indices a v).map Prod.snd = preorderFlatten st path indices v)
    (fun path indices a i vs =>
      (flattenAddrItems st path indices a i vs).map Prod.snd = flattenItems st path indices i vs)
    (fun path indices a i entries =>
      (flattenAddrEntries st path indices a i entries).map Prod.snd =
        flattenEntries st path indices entries)
    ?_ ?_ ?_ ?_ ?_ ?_ ?_ ?_ ?_ ?_ path0 indices0 a0 v0
  · intro path indices a entries h
    cases hsk : Style.should_skip_object_parents st <;>
      simp [flattenAddr, preorderFlatten, hsk, h]
  · intro path indices a vs h
    cases hsk : Style.should_skip_array_parents st <;>
      simp [flattenAddr, preorderFlatten, hsk, h]
  · intro path indices a; simp [flattenAddr, preorderFlatten]
  · intro path indices a b; simp [flattenAddr, preorderFlatten]
  · intro path indices a n; simp [flattenAddr, preorderFlatten]
  · intro path indices a s; simp [flattenAddr, preorderFlatten]
  · intro path indices a i; simp [flattenAddrItems, flattenItems]
  · intro path indices a i v rest h1 h2
    simp [flattenAddrItems, flattenItems, h1, h2]
  · intro path indices a i; simp [flattenAddrEntries, flattenEntries]
  · intro path indices a i k v rest h1 h2
    simp [flattenAddrEntries, flattenEntries, h1, h2]

theorem flattenAddr_spec (st : Style) (path0 : String) (indices0 : List Nat)
    (a0 : List Step) (v0 : Value) :
    ∀ b e, (b, e) ∈ flattenAddr st path0 indices0 a0 v0 →
      ∃ c, b = a0 ++ c ∧ e.indices = indices0 ++ arrayIndicesOf c ∧
        Value.getAddr v0 c = some e.value := by
  refine flattenAddr.induct st
    (fun path indices a v => ∀ b e, (b, e) ∈ flattenAddr st path indices a v →
      ∃ c, b = a ++ c ∧ e.indices = indices ++ arrayIndicesOf c ∧
        Value.getAddr v c = some e.value)
    (fun path indices a i vs => ∀ b e, (b, e) ∈ flattenAddrItems st path indices a i vs →
      ∃ j w c, vs[j]? = some w ∧ b = a ++ Step.index (i + j) :: c ∧
        e.indices = indices ++ (i + j) :: arrayIndicesOf c ∧
        Value.getAddr w c = some e.value)
    (fun path indices a i entries => ∀ b e, (b, e) ∈ flattenAddrEntries st path indices a i entries →
      ∃ j kv c, entries[j]? = some kv ∧ b = a ++ Step.field (i + j) :: c ∧
        e.indices = indices ++ arrayIndicesOf c ∧
        Value.getAddr kv.2 c = some e.value)
    ?_ ?_ ?_ ?_ ?_ ?_ ?_ ?_ ?_ ?_ path0 indices0 a0 v0
  · intro path indices a entries h b e hmem
    rw [flattenAddr] at hmem
    rcases List.mem_append.mp hmem with h1 | h2
    · cases hsk : Style.should_skip_object_parents st
      · rw [hsk] at h1
        simp at h1
        obtain ⟨hb, he⟩ := h1
        subst hb; subst he
        exact ⟨[], by simp, by simp [arrayIndicesOf], by simp [Value.getAddr]⟩
      · rw [hsk] at h1
        simp at h1
    · obtain ⟨j, kv, c, hj, hb, hi, hg⟩ := h b e h2
      refine ⟨Step.field j :: c, ?_, by simp [hi, arrayIndicesOf], ?_⟩
      · simpa using hb
      · simp [Value.getAddr, hj, hg]
  · intro path indices a vs h b e hmem
    rw [flattenAddr] at hmem
    rcases List.mem_append.mp hmem with h1 | h2
    · cases hsk : Style.should_skip_array_parents st
      · rw [hsk] at h1
        simp at h1
        obtain ⟨hb, he⟩ := h1
        subst hb; subst he
        exact ⟨[], by simp, by simp [arrayIndicesOf], by simp [Value.getAddr]⟩
      · rw [hsk] at h1
        simp at h1
    · obtain ⟨j, w, c, hj, hb, hi, hg⟩ := h b e h2
      refine ⟨Step.index j :: c, ?_, by simp [hi, arrayIndicesOf], ?_⟩
      · simpa using hb
      · simp [Value.getAddr, hj, hg]
  · intro path indices a b e hmem
    simp [flattenAddr] at hmem
    obtain ⟨hb, he⟩ := hmem
    subst hb; subst he
    exact ⟨[], by simp, by simp [arrayIndicesOf], by simp [Value.getAddr]⟩
  · intro path indices a bb b e hmem
    simp [flattenAddr] at hmem
    obtain ⟨hb, he⟩ := hmem
    subst hb; subst he
    exact ⟨[], by simp, by simp [arrayIndicesOf], by simp [Value.getAddr]⟩
  · intro path indices a n b e hmem
    simp [flattenAddr] at hmem
    obtain ⟨hb, he⟩ := hmem
    subst hb; subst he
    exact ⟨[], by simp, by simp [arrayIndicesOf], by simp [Value.getAddr]⟩
  · intro path indices a s b e hmem
    simp [flattenAddr] at hmem
    obtain ⟨hb, he⟩ := hmem
    subst hb; subst he
    exact ⟨[], by simp, by simp [arrayIndicesOf], by simp [Value.getAddr]⟩
  · intro path indices a i b e hmem
    simp [flattenAddrItems] at hmem
  · intro path indices a i v rest h1 h2 b e hmem
    rw [flattenAddrItems] at hmem
    rcases List.mem_append.mp hmem with hL | hR
    · obtain ⟨c, hb, hi, hg⟩ := h1 b e hL
      refine ⟨0, v, c, by simp, ?_, ?_, hg⟩
      · simpa using hb
      · simpa using hi
    · obtain ⟨j, w, c, hj, hb, hi, hg⟩ := h2 b e hR
      have harith : i + 1 + j = i + (j + 1) := by omega
      refine ⟨j + 1, w, c, by simpa using hj, ?_, ?_, hg⟩
      · rw [← harith]; exact hb
      · rw [← harith]; exact hi
  · intro path indices a i b e hmem
    simp [flattenAddrEntries] at hmem
  · intro path indices a i k v rest h1 h2 b e hmem
    rw [flattenAddrEntries] at hmem
    rcases List.mem_append.mp hmem with hL | hR
    · obtain ⟨c, hb, hi, hg⟩ := h1 b e hL
      refine ⟨0, (k, v), c, by simp, ?_, hi, hg⟩
      · simpa using hb
    · obtain ⟨j, kv, c, hj, hb, hi, hg⟩ := h2 b e hR
      have harith : i + 1 + j = i + (j + 1) := by omega
      refine ⟨j + 1, kv, c, by simpa using hj, ?_, hi, hg⟩
      · rw [← harith]; exact hb

/-- C2: the iterator's yielded sequence is exactly the address-tagged
pre-order emission with the tags dropped, and every tagged Element's
`indices` equals the list of array positions along its address from the
root — one entry per array level crossed (object-entry levels contribute
nothing), in root-to-node order, each entry the node's position within the
corresponding ancestor array — with the address resolving to the Element's
value; this holds under every style, including ones that hide indices in
the path text. -/
theorem element_indices_are_array_ancestor_positions (st : Style) (v : Value) :
    (flattenAddr st "" [] [] v).map Prod.snd =
      Iter.toList (Iter.use_style (Iter.new v) st) ∧
    ∀ a e, (a, e) ∈ flattenAddr st "" [] [] v →
      e.indices = arrayIndicesOf a ∧ Value.getAddr v a = some e.value := by
  constructor
  · rw [flattenAddr_map_snd]
    show _ = toListAux st [⟨"", [], v⟩]
    rw [toListAux_eq_flatten]
    simp
  · intro a e hmem
    obtain ⟨c, hb, hi, hg⟩ := flattenAddr_spec st "" [] [] v a e hmem
    simp at hb
    subst hb
    exact ⟨by simpa using hi, hg⟩

theorem element_indices_are_array_ancestor_positions_witness :
    Element.indices { path := "[\"a\"][0]", indices := [0], value := Value.bool true } =
      arrayIndicesOf [Step.field 0, Step.index 0] ∧
    Value.getAddr (Value.obj [("a", Value.arr [Value.bool true])])
        [Step.field 0, Step.index 0] =
      some (Element.value { path := "[\"a\"][0]", indices := [0], value := Value.bool true }) :=
  (element_indices_are_array_ancestor_positions
      (PresetStyle.toStyle PresetStyle.SquareBrackets)
      (Value.obj [("a", Value.arr [Value.bool true])])).2
    [Step.field 0, Step.index 0]
    { path := "[\"a\"][0]", indices := [0], value := Value.bool true }
    (List.Mem.head _)

theorem mem_flattenAddrEntries_of_getElem (st : Style) (path : String) (indices : List Nat)
    (a : List Step) (x : List Step × Element) :
    ∀ (entries : List (String × Value)) (i j : Nat) (kv : String × Value),
      entries[j]? = some kv →
      x ∈ flattenAddr st (Style.object_format st path kv.1) indices
            (a ++ [Step.field (i + j)]) kv.2 →
      x ∈ flattenAddrEntries st path indices a i entries := by
  intro entries
  induction entries with
  | nil => intro i j kv hj; simp at hj
  | cons kv0 rest ih =>
    obtain ⟨k0, v0⟩ := kv0
    intro i j kv hj hx
    match j with
    | 0 =>
      simp at hj
      subst hj
      rw [flattenAddrEntries]
      exact List.mem_append.mpr (Or.inl (by simpa using hx))
    | j' + 1 =>
      rw [flattenAddrEntries]
      refine List.mem_append.mpr (Or.inr ?_)
      have harith : i + (j' + 1) = (i + 1) + j' := by omega
      refine ih (i + 1) j' kv (by simpa using hj) ?_
      rw [harith] at hx
      exact hx

theorem mem_flattenAddrItems_of_getElem (st : Style) (path : String) (indices : List Nat)
    (a : List Step) (x : List Step × Element) :
    ∀ (vs : List Value) (i j : Nat) (w : Value),
      vs[j]? = some w →
      x ∈ flattenAddr st (Style.array_format st path (i + j)) (indices ++ [i + j])
            (a ++ [Step.index (i + j)]) w →
      x ∈ flattenAddrItems st path indices a i vs := by
  intro vs
  induction vs with
  | nil => intro i j w hj; simp at hj
  | cons v0 rest ih =>
    intro i j w hj hx
    match j with
    | 0 =>
      simp at hj
      subst hj
      rw [flattenAddrItems]
      exact List.mem_append.mpr (Or.inl (by simpa using hx))
    | j' + 1 =>
      rw [flattenAddrItems]
      refine List.mem_append.mpr (Or.inr ?_)
      have harith : i + (j' + 1) = (i + 1) + j' := by omega
      refine ih (i + 1) j' w (by simpa using hj) ?_
      rw [harith] at hx
      exact hx

theorem scalar_addr_reached (st : Style) :
    ∀ (a : List Step) (v w : Value) (path : String) (indices : List Nat) (aa : List Step),
      Value.getAddr v a = some w → Value.isScalar w = true →
      ∃ b e, (b, e) ∈ flattenAddr st path indices aa v ∧ e.value = w := by
  intro a
  induction a with
  | nil =>
    intro v w path indices aa hga hsc
    simp [Value.getAddr] at hga
    subst hga
    match v, hsc with
    | Value.null, _ => exact ⟨aa, ⟨path, indices, Value.null⟩, by rw [flattenAddr]; simp, rfl⟩
    | Value.bool b, _ => exact ⟨aa, ⟨path, indices, Value.bool b⟩, by rw [flattenAddr]; simp, rfl⟩
    | Value.num n, _ => exact ⟨aa, ⟨path, indices, Value.num n⟩, by rw [flattenAddr]; simp, rfl⟩
    | Value.str s, _ => exact ⟨aa, ⟨path, indices, Value.str s⟩, by rw [flattenAddr]; simp, rfl⟩
  | cons s rest ih =>
    intro v w path indices aa hga hsc
    match v, s with
    | Value.obj entries, Step.field j =>
      rw [Value.getAddr] at hga
      cases hj : entries[j]? with
      | none => rw [hj] at hga; simp at hga
      | some kv =>
        rw [hj] at hga
        obtain ⟨b, e, hbe, hev⟩ :=
          ih kv.2 w (Style.object_format st path kv.1) indices (aa ++ [Step.field j]) hga hsc
        refine ⟨b, e, ?_, hev⟩
        rw [flattenAddr]
        refine List.mem_append.mpr (Or.inr ?_)
        exact mem_flattenAddrEntries_of_getElem st path indices aa (b, e) entries 0 j kv
          (by simpa using hj) (by simpa using hbe)
    | Value.arr vs, Step.index j =>
      rw [Value.getAddr] at hga
      cases hj : vs[j]? with
      | none => rw [hj] at hga; simp at hga
      | some w0 =>
        rw [hj] at hga
        obtain ⟨b, e, hbe, hev⟩ :=
          ih w0 w (Style.array_format st path j) (indices ++ [j]) (aa ++ [Step.index j]) hga hsc
        refine ⟨b, e, ?_, hev⟩
        rw [flattenAddr]
        refine List.mem_append.mpr (Or.inr ?_)
        exact mem_flattenAddrItems_of_getElem st path indices aa (b, e) vs 0 j w0
          (by simpa using hj) (by simpa using hbe)
    | Value.obj entries, Step.index j => simp [Value.getAddr] at hga
    | Value.arr vs, Step.field j => simp [Value.getAddr] at hga
    | Value.null, _ => simp [Value.getAddr] at hga
    | Value.bool b, _ => simp [Value.getAddr] at hga
    | Value.num n, _ => simp [Value.getAddr] at hga
    | Value.str s2, _ => simp [Value.getAddr] at hga

/-- C8: under every style, every Scalar node (null included) reachable in
the tree is yielded as an Element and never suppressed; in particular a
scalar root yields exactly one Element, with path `""` and empty indices,
under every style. -/
theorem scalars_never_suppressed (st : Style) (v : Value) :
    (∀ a w, Value.getAddr v a = some w → Value.isScalar w = true →
      ∃ e, e ∈ Iter.toList (Iter.use_style (Iter.new v) st) ∧ e.value = w) ∧
    (Value.isScalar v = true →
      Iter.toList (Iter.use_style (Iter.new v) st) = [⟨"", [], v⟩]) := by
  have htl : Iter.toList (Iter.use_style (Iter.new v) st) = preorderFlatten st "" [] v := by
    show toListAux st [⟨"", [], v⟩] = _
    rw [toListAux_eq_flatten]
    simp
  constructor
  · intro a w hga hsc
    obtain ⟨b, e, hbe, hev⟩ := scalar_addr_reached st a v w "" [] [] hga hsc
    refine ⟨e, ?_, hev⟩
    rw [htl, ← flattenAddr_map_snd st "" [] [] v]
    exact List.mem_map.mpr ⟨(b, e), hbe, rfl⟩
  · intro hsc
    rw [htl]
    match v, hsc with
    | Value.null, _ => rfl
    | Value.bool b, _ => rfl
    | Value.num n, _ => rfl
    | Value.str s, _ => rfl

theorem scalars_never_suppressed_witness :
    (∃ e, e ∈ Iter.toList (Iter.use_style (Iter.new (Value.num 42))
        (PresetStyle.toStyle PresetStyle.CommonJs)) ∧ e.value = Value.num 42) ∧
    Iter.toList (Iter.use_style (Iter.new (Value.num 42))
        (PresetStyle.toStyle PresetStyle.CommonJs)) =
      [{ path := "", indices := [], value := Value.num 42 }] :=
  ⟨(scalars_never_suppressed (PresetStyle.toStyle PresetStyle.CommonJs) (Value.num 42)).1
      [] (Value.num 42) rfl rfl,
   (scalars_never_suppressed (PresetStyle.toStyle PresetStyle.CommonJs) (Value.num 42)).2 rfl⟩
